import Mathlib

/-!
# Verification of the Preda RAG pipeline

A shallow embedding of the safety triage layer (`app/safety/triage.py`),
the RAG pipeline (`app/rag/pipeline.py`), the chunker (`app/rag/chunker.py`)
and the vector store (`app/rag/vector_store.py`), with theorems checking the
natural-language specification against the code.

Python strings are modelled as Lean `String`s; the Python `str` operations
used by the code (`lower`, `upper`, `strip`, `split`, slicing, `join`,
substring membership) are modelled as executable functions on the underlying
character lists.  Similarity scores (floats in the code) are modelled as
rationals.  External effects (the FAISS index, the sentence-transformer
embedding and the Ollama HTTP call) are passed in as oracle parameters.
-/

namespace Preda

/-! ## Python string operation models -/

/-- Model of Python `str.lower()` (per-character lowering). -/
def strLower (s : String) : String := ⟨s.data.map Char.toLower⟩

/-- Model of Python `str.upper()` (per-character uppering). -/
def strUpper (s : String) : String := ⟨s.data.map Char.toUpper⟩

/-- Model of Python `phrase in text` on strings: contiguous substring test. -/
def substrB (p s : String) : Bool := decide (p.data <:+: s.data)

/-- Model of Python `s[:n]` (first `n` characters). -/
def strTake (s : String) (n : Nat) : String := ⟨s.data.take n⟩

/-- Characters left after stripping whitespace from both ends. -/
def trimChars (l : List Char) : List Char :=
  ((l.dropWhile Char.isWhitespace).reverse.dropWhile Char.isWhitespace).reverse

/-- Model of Python `str.strip()`. -/
def strTrim (s : String) : String := ⟨trimChars s.data⟩

/-- Split a character list at every whitespace character, keeping empty
pieces (the result is always non-empty). -/
def splitAllWS : List Char → List (List Char)
  | [] => [[]]
  | c :: cs =>
    if c.isWhitespace then [] :: splitAllWS cs
    else
      match splitAllWS cs with
      | [] => [[c]]
      | p :: ps => (c :: p) :: ps

/-- Model of Python `str.split()` with no argument on the character list:
split on whitespace runs, discarding empty pieces. -/
def splitWS (l : List Char) : List (List Char) :=
  (splitAllWS l).filter (fun w => !w.isEmpty)

/-- Model of Python `text.split()`: the whitespace-separated words of `text`. -/
def splitWords (s : String) : List String := (splitWS s.data).map fun w => ⟨w⟩

/-- Model of Python `text.split("\n")` on the character list: split at every
newline, keeping empty pieces (so the result is always non-empty). -/
def splitLinesCh : List Char → List (List Char)
  | [] => [[]]
  | c :: cs =>
    if c = '\n' then [] :: splitLinesCh cs
    else
      match splitLinesCh cs with
      | [] => [[c]]
      | p :: ps => (c :: p) :: ps

/-- Model of Python `text.split("\n")`. -/
def splitLines (s : String) : List String := (splitLinesCh s.data).map fun w => ⟨w⟩

/-- Model of Python `sep.join(xs)`. -/
def joinSep (sep : String) : List String → String
  | [] => ""
  | [x] => x
  | x :: y :: ys => x ++ sep ++ joinSep sep (y :: ys)

/-! ## `app/safety/triage.py` -/

/-- `EMERGENCY_TRIGGERS` from `app/safety/triage.py`, in the source's
(insertion-preserving) dict iteration order. -/
def EMERGENCY_TRIGGERS : List (String × List String) :=
  [ ("cardiac",
      ["chest pain", "chest tightness", "chest pressure", "left arm pain",
       "left arm numbness", "heart attack", "crushing chest",
       "jaw pain with chest"]),
    ("stroke",
      ["facial drooping", "face drooping", "sudden numbness", "arm weakness",
       "slurred speech", "sudden severe headache", "vision loss", "stroke",
       "can\x27t speak", "cannot speak"]),
    ("respiratory",
      ["can\x27t breathe", "cannot breathe", "can\x27t catch my breath",
       "difficulty breathing", "stopped breathing", "choking",
       "not breathing"]),
    ("mental_health_crisis",
      ["suicidal", "want to kill myself", "end my life", "kill myself",
       "self harm", "self-harm", "hurting myself", "want to die",
       "no reason to live"]),
    ("severe_allergic",
      ["anaphylaxis", "throat closing", "throat swelling", "severe allergic",
       "epipen", "can\x27t swallow", "cannot swallow"]),
    ("unconscious",
      ["unconscious", "unresponsive", "passed out", "collapsed",
       "not waking up", "won\x27t wake up"]) ]

/-- `EMERGENCY_MESSAGES` from `app/safety/triage.py`. -/
def EMERGENCY_MESSAGES : List (String × String) :=
  [ ("cardiac", "This sounds like a possible cardiac emergency."),
    ("stroke", "These symptoms may indicate a stroke."),
    ("respiratory", "Breathing difficulties require immediate emergency care."),
    ("mental_health_crisis",
      "You are not alone. Please reach out for immediate help."),
    ("severe_allergic",
      "Severe allergic reactions require immediate emergency care."),
    ("unconscious",
      "An unconscious person needs emergency services immediately.") ]

/-- The dict returned by `check_safety`. -/
structure SafetyVerdict where
  triggered : Bool
  category : Option String
  matched_phrase : Option String
  emergency_message : Option String
deriving DecidableEq

/-- `check_safety(text)` from `app/safety/triage.py`: scan the trigger
categories in order, inside each category the phrases in order, and return
the first phrase contained in the lowercased text.
`EMERGENCY_MESSAGES.get(category, "")` is `(lookup category).getD ""`. -/
def check_safety (text : String) : SafetyVerdict :=
  let text_lower := strLower text
  match EMERGENCY_TRIGGERS.findSome? (fun ct =>
      (ct.2.find? (fun phrase => substrB phrase text_lower)).map
        (fun phrase => (ct.1, phrase))) with
  | some cp =>
    { triggered := true
      category := some cp.1
      matched_phrase := some cp.2
      emergency_message := some ((EMERGENCY_MESSAGES.lookup cp.1).getD "") }
  | none =>
    { triggered := false
      category := none
      matched_phrase := none
      emergency_message := none }

/-- Similarity scores (floats in the code) are modelled as rationals. -/
def MIN_RETRIEVAL_SCORE_DEFAULT : ℚ := 5 / 100

/-- A `{ chunk_index, text, score }` retrieval result from
`app/rag/vector_store.py`. -/
structure RetrievalResult where
  chunk_index : Nat
  text : String
  score : ℚ
deriving DecidableEq

/-- `is_retrieval_sufficient(retrieved_chunks)` from `app/safety/triage.py`,
parameterised by the environment-tunable `MIN_RETRIEVAL_SCORE`. -/
def is_retrieval_sufficient (minScore : ℚ) (retrieved_chunks : List RetrievalResult) : Bool :=
  if retrieved_chunks.isEmpty then false
  else retrieved_chunks.any (fun c => decide (minScore ≤ c.score))

/-! ## `app/rag/pipeline.py`: fixed messages -/

/-- The disclaimer line quoted in rule 8 of `SYSTEM_PROMPT_EN` and appended
by `_fallback_answer` (English). -/
def DISCLAIMER_LINE_EN : String :=
  "⚕ This is informational only. Please consult your healthcare provider."

/-- The disclaimer line quoted in rule 8 of `SYSTEM_PROMPT_HI` and appended
by `_fallback_answer` (Hindi). -/
def DISCLAIMER_LINE_HI : String :=
  "⚕ यह केवल सूचनात्मक है। कृपया अपने स्वास्थ्य सेवा प्रदाता से परामर्श लें।"

/-- `SYSTEM_PROMPT_EN` from `app/rag/pipeline.py` (the disclaimer line is
spliced in so that the theorems can name it). -/
def SYSTEM_PROMPT_EN : String :=
  "You are a health document assistant helping a patient understand their " ++
  "medical documents.\n\n" ++
  "RULES you must always follow:\n" ++
  "1. Answer ONLY using the provided document chunks below.\n" ++
  "2. Cite every factual claim using [1], [2], [3] matching the chunk numbers.\n" ++
  "3. If the answer is not in the chunks, say exactly:\n" ++
  "   \"I don\x27t know based on the available documents.\"\n" ++
  "4. NEVER invent medical facts, lab values, names, or dates.\n" ++
  "5. NEVER provide a diagnosis or treatment recommendation.\n" ++
  "6. Write in clear, simple language a non-medical person can understand.\n" ++
  "7. Keep your answer to 4-6 sentences maximum.\n" ++
  "8. Always end with this exact line:\n" ++
  "   \"" ++ DISCLAIMER_LINE_EN ++ "\"\n"

/-- `DONT_KNOW_EN` from `app/rag/pipeline.py`. -/
def DONT_KNOW_EN : String :=
  "I don\x27t know based on the available documents. " ++
  "Could you clarify your question or upload additional documents " ++
  "that might contain relevant information?"

/-- `DONT_KNOW_HI` from `app/rag/pipeline.py`. -/
def DONT_KNOW_HI : String :=
  "उपलब्ध दस्तावेज़ों के आधार पर मुझे नहीं पता। " ++
  "क्या आप अपना प्रश्न स्पष्ट कर सकते हैं या ऐसे अतिरिक्त दस्तावेज़ " ++
  "अपलोड कर सकते हैं जिनमें प्रासंगिक जानकारी हो?"

/-- `NO_DOCS_EN` from `app/rag/pipeline.py`. -/
def NO_DOCS_EN : String :=
  "No documents are available for this session. " ++
  "Please upload a PDF and confirm the extracted text first."

/-- `NO_DOCS_HI` from `app/rag/pipeline.py`. -/
def NO_DOCS_HI : String :=
  "इस सत्र के लिए कोई दस्तावेज़ उपलब्ध नहीं है। " ++
  "कृपया पहले एक PDF अपलोड करें और निकाले गए पाठ की पुष्टि करें।"

/-! ## `app/rag/pipeline.py`: `_fallback_answer` -/

/-- `LAB_KEYWORDS` from `_fallback_answer` (a Python set used only for
membership tests, so modelled as a list; iteration order is irrelevant). -/
def LAB_KEYWORDS : List String :=
  ["NORMAL", "HIGH", "LOW", "RESULT", "SODIUM", "POTASSIUM", "GLUCOSE",
   "HEMOGLOBIN", "CREATININE", "CHOLESTEROL", "PHYSICIAN", "DATE",
   "COLLECTED", "REPORTED", "PATIENT", "SPECIMEN", "WBC", "RBC",
   "PLATELET", "CALCIUM", "PROTEIN"]

/-- The inner loop of `_fallback_answer` for one chunk: the stripped lines of
the chunk's text that are longer than 10 characters and contain a lab
keyword (uppercased comparison). -/
def meaningfulLines (text : String) : List String :=
  ((splitLines text).map strTrim).filter
    (fun line => decide (10 < line.length) &&
      LAB_KEYWORDS.any (fun kw => substrB kw (strUpper line)))

/-- `_fallback_answer(retrieved)` from `app/rag/pipeline.py`, with the active
language (`is_hindi()`) passed explicitly.  The `lines` accumulator collects,
for the first 3 retrieved results, a `"[i+1] "`-labelled join of the first 4
meaningful lines of each result that has any. -/
def fallbackAnswer (hindi : Bool) (retrieved : List RetrievalResult) : String :=
  let lines := (retrieved.take 3).enum.filterMap (fun ir =>
    let meaningful := meaningfulLines ir.2.text
    if meaningful.isEmpty then none
    else some ("[" ++ toString (ir.1 + 1) ++ "] " ++
      joinSep " | " (meaningful.take 4)))
  let disclaimer :=
    if hindi then "\n\n" ++ DISCLAIMER_LINE_HI else "\n\n" ++ DISCLAIMER_LINE_EN
  let pre := if hindi then "आपके दस्तावेज़ों से:\n\n" else "From your documents:\n\n"
  let fbPre :=
    if hindi then "आपके दस्तावेज़ों से [1]: " else "From your documents [1]: "
  if !lines.isEmpty then pre ++ joinSep "\n" lines ++ disclaimer
  else
    let top := match retrieved.head? with
      | some r => strTake r.text 300
      | none => ""
    fbPre ++ top ++ "..." ++ disclaimer

/-! ## `app/rag/pipeline.py`: `run_rag` -/

/-- One citation dict built in step 6 of `run_rag`. -/
structure Citation where
  label : String
  chunk_id : Option Nat
  source_doc : String
  excerpt : String
deriving DecidableEq

/-- The dict returned by `run_rag`. -/
structure RagResult where
  answer : String
  citations : List Citation
  safety_triggered : Bool
  emergency_message : Option String
  retrieved : List RetrievalResult
deriving DecidableEq

/-- The emergency answer string built in step 1 of `run_rag` (the `lang`
branch of the f-string). -/
def emergencyAnswer (hindi : Bool) (msg : String) : String :=
  if hindi then
    "⚠️ " ++ msg ++ " कृपया तुरंत आपातकालीन सेवाओं को कॉल करें (112)। " ++
    "आपात स्थिति में इस उपकरण पर निर्भर न रहें।"
  else
    "⚠️ " ++ msg ++ " Please call emergency services immediately " ++
    "(911 / 999 / 112). " ++
    "Do not rely on this tool in an emergency."

/-- `run_rag` from `app/rag/pipeline.py`.

External pieces are oracle parameters: `hindi` is the active language from
`_get_prompts()`; `minScore` is the environment-tunable
`MIN_RETRIEVAL_SCORE`; `retrieve question` is
`retrieve_chunks(session_id, question, top_n)` (the session id, top-n and
index state are absorbed into the oracle); `ollama question retrieved` is
`_call_ollama(question, retrieved)`.  `ensure_index` only mutates the index
cache, which the `retrieve` oracle already reflects, and `use_private_only`
is unused by the source function.  When safety triggers, the code
interpolates `safety["emergency_message"]` (always a string there),
modelled by `Option.getD ""`. -/
def run_rag (hindi : Bool) (minScore : ℚ)
    (retrieve : String → List RetrievalResult)
    (ollama : String → List RetrievalResult → String)
    (question : String) (chunks : List String)
    (chunk_db_ids : List Nat) (source_names : List String) : RagResult :=
  let dont_know := if hindi then DONT_KNOW_HI else DONT_KNOW_EN
  let no_docs := if hindi then NO_DOCS_HI else NO_DOCS_EN
  let safety := check_safety question
  if safety.triggered then
    { answer := emergencyAnswer hindi (safety.emergency_message.getD "")
      citations := []
      safety_triggered := true
      emergency_message := safety.emergency_message
      retrieved := [] }
  else if chunks.isEmpty then
    { answer := no_docs
      citations := []
      safety_triggered := false
      emergency_message := none
      retrieved := [] }
  else
    let retrieved := retrieve question
    if !is_retrieval_sufficient minScore retrieved then
      { answer := dont_know
        citations := []
        safety_triggered := false
        emergency_message := none
        retrieved := retrieved }
    else
      let answer := ollama question retrieved
      let citations := retrieved.enum.map (fun ir =>
        { label := "[" ++ toString (ir.1 + 1) ++ "]"
          chunk_id := chunk_db_ids.get? ir.2.chunk_index
          source_doc := (source_names.get? ir.2.chunk_index).getD "Document"
          excerpt := strTake ir.2.text 300 : Citation })
      { answer := answer
        citations := citations
        safety_triggered := false
        emergency_message := none
        retrieved := retrieved }

/-! ## `app/rag/chunker.py` -/

/-- `CHUNK_SIZE` from `app/rag/chunker.py`. -/
def CHUNK_SIZE : Nat := 400

/-- `CHUNK_OVERLAP` from `app/rag/chunker.py`. -/
def CHUNK_OVERLAP : Nat := 80

/-- The `while start < len(words)` loop of `chunk_text`, on word lists
(joining to strings is applied afterwards).  The loop is modelled with
explicit fuel: when `overlap < chunk_size` the start index advances by
`chunk_size - overlap ≥ 1` each iteration, so `words.length + 1` units of
fuel always suffice (proved below); the fuel-exhausted branch is then
unreachable. -/
def chunkLoopW (chunk_size overlap : Nat) (words : List String) :
    Nat → Nat → List (List String)
  | 0, _ => []
  | fuel + 1, start =>
    if start < words.length then
      let cw := (words.drop start).take chunk_size
      if words.length ≤ start + chunk_size then [cw]
      else cw :: chunkLoopW chunk_size overlap words fuel
        (start + (chunk_size - overlap))
    else []

/-- `chunk_text(text, chunk_size, overlap)` from `app/rag/chunker.py`:
the guard `if not text or not text.strip(): return []`, then
`words = text.split()`, `if not words: return []`, then the sliding-window
loop with each chunk `" ".join(words[start:start+chunk_size])`. -/
def chunk_text (text : String) (chunk_size : Nat := CHUNK_SIZE)
    (overlap : Nat := CHUNK_OVERLAP) : List String :=
  if (strTrim text).data.isEmpty then []
  else
    let words := splitWords text
    if words.isEmpty then []
    else (chunkLoopW chunk_size overlap words (words.length + 1) 0).map
      (joinSep " ")

/-- One iteration of the Python `while start < len(words)` loop of
`chunk_text`, as written in the source, over Python (signed, unbounded)
integers: from loop variable `start`, return `none` when the loop exits
(guard false, or the `end >= len(words)` break) and `some start'` when the
body runs and continues with `start' = start + (chunk_size - overlap)`.
Used to exhibit the loop's behaviour when `overlap >= chunk_size`. -/
def pythonLoopStep (words : List String) (chunk_size overlap : Int)
    (start : Int) : Option Int :=
  if start < words.length then
    if (words.length : Int) ≤ start + chunk_size then none
    else some (start + (chunk_size - overlap))
  else none

/-! ## `app/rag/vector_store.py` -/

/-- The comparator realising the spec's ordering of FAISS search results on
`(score, id)` pairs: higher score first, ties by ascending id. -/
def faissLe (a b : ℚ × Nat) : Bool :=
  decide (b.1 < a.1) || (decide (a.1 = b.1) && decide (a.2 ≤ b.2))

/-- Insertion of one element into a sorted list (used to model the sorted
output of the FAISS search). -/
def insertSorted (le : ℚ × Nat → ℚ × Nat → Bool) (x : ℚ × Nat) :
    List (ℚ × Nat) → List (ℚ × Nat)
  | [] => [x]
  | y :: ys => if le x y then x :: y :: ys else y :: insertSorted le x ys

/-- Insertion sort (used to model the sorted output of the FAISS search). -/
def sortByLe (le : ℚ × Nat → ℚ × Nat → Bool) :
    List (ℚ × Nat) → List (ℚ × Nat)
  | [] => []
  | x :: xs => insertSorted le x (sortByLe le xs)

/-- Modelled from the spec: `faiss.IndexFlatIP.search` (the FAISS library is
not part of this repository's sources).  Per the spec, searching a flat
inner-product index returns, for the query, the `k` best `(score, id)`
pairs over the stored vectors, ordered descending by score with ties broken
by ascending id.  `scores` lists the query's similarity score against the
vector stored at each id. -/
def faissSearch (scores : List ℚ) (k : Nat) : List (ℚ × Nat) :=
  (sortByLe faissLe (scores.enum.map (fun p => (p.2, p.1)))).take k

/-- `retrieve_chunks(session_id, query, top_n)` from
`app/rag/vector_store.py`.  The module-level `_session_indexes` cache is the
`index` parameter (`none` when no index was built for the session); the
sentence-transformer embedding of query and chunks is abstracted into the
similarity oracle `sim`, so `chunks.map (sim query)` are the cosine scores
the FAISS index computes.  `k = min(top_n, len(chunks))`, and each returned
id of the flat index is a valid chunk position, so the `idx >= 0` guard of
the source never filters anything here (`chunks.getD si.2 ""` is
`chunks[idx]`). -/
def retrieve_chunks (index : Int → Option (List String))
    (sim : String → String → ℚ)
    (session_id : Int) (query : String) (top_n : Nat) : List RetrievalResult :=
  match index session_id with
  | none => []
  | some chunks =>
    let scores := chunks.map (sim query)
    let k := min top_n chunks.length
    (faissSearch scores k).map (fun si =>
      { chunk_index := si.2, text := chunks.getD si.2 "", score := si.1 })

/-! ## Helper lemmas about `check_safety` -/

theorem substrB_eq_true_iff {p s : String} :
    substrB p s = true ↔ p.data <:+: s.data := by
  simp [substrB]

/-- Full case analysis of `check_safety`: either no phrase of any category
matches and the negative verdict is returned, or the verdict records a
category/phrase pair from the trigger table whose phrase occurs in the
lowercased text, together with that category's message-table entry. -/
theorem check_safety_cases (text : String) :
    (check_safety text = ⟨false, none, none, none⟩ ∧
      ∀ ct ∈ EMERGENCY_TRIGGERS, ∀ p ∈ ct.2,
        substrB p (strLower text) = false) ∨
    (∃ cat phrases phrase,
      (cat, phrases) ∈ EMERGENCY_TRIGGERS ∧ phrase ∈ phrases ∧
      substrB phrase (strLower text) = true ∧
      check_safety text =
        ⟨true, some cat, some phrase,
          some ((EMERGENCY_MESSAGES.lookup cat).getD "")⟩) := by
  cases h : EMERGENCY_TRIGGERS.findSome? (fun ct =>
      (ct.2.find? (fun phrase => substrB phrase (strLower text))).map
        (fun phrase => (ct.1, phrase))) with
  | none =>
    left
    constructor
    · simp only [check_safety, h]
    · intro ct hct p hp
      have h1 := List.findSome?_eq_none_iff.mp h ct hct
      have h2 : ct.2.find? (fun phrase => substrB phrase (strLower text)) = none := by
        cases hf : ct.2.find? (fun phrase => substrB phrase (strLower text)) with
        | none => rfl
        | some q => rw [hf] at h1; simp at h1
      have h3 := List.find?_eq_none.mp h2 p hp
      simpa using h3
  | some cp =>
    right
    obtain ⟨ct, hct, hmap⟩ := List.exists_of_findSome?_eq_some h
    obtain ⟨phrase, hfind, hcp⟩ := Option.map_eq_some'.mp hmap
    refine ⟨ct.1, ct.2, phrase, hct, List.mem_of_find?_eq_some hfind,
      by simpa using List.find?_some hfind, ?_⟩
    simp only [check_safety, h, ← hcp]

/-- Every category key of the trigger table has an entry in the message
table. -/
theorem lookup_message_of_mem_triggers {cat : String} {phrases : List String}
    (h : (cat, phrases) ∈ EMERGENCY_TRIGGERS) :
    ∃ msg, EMERGENCY_MESSAGES.lookup cat = some msg := by
  have hall : ∀ ct ∈ EMERGENCY_TRIGGERS,
      (EMERGENCY_MESSAGES.lookup ct.1).isSome = true := by decide
  exact Option.isSome_iff_exists.mp (hall (cat, phrases) h)

/-! ## Claim C10 -/

/-- C10: for every input text the verdict of `check_safety` is well-formed:
when `triggered` is true, `matched_phrase` is one of the phrases listed
under the returned `category` in `EMERGENCY_TRIGGERS`, that phrase is a
substring of the lowercased input, and `emergency_message` is exactly the
`EMERGENCY_MESSAGES` entry for that category; when `triggered` is false,
`category`, `matched_phrase` and `emergency_message` are all `none`. -/
theorem check_safety_verdict_wf (text : String) :
    ((check_safety text).triggered = true →
      ∃ cat phrases phrase msg,
        (check_safety text).category = some cat ∧
        (check_safety text).matched_phrase = some phrase ∧
        (cat, phrases) ∈ EMERGENCY_TRIGGERS ∧ phrase ∈ phrases ∧
        phrase.data <:+: (strLower text).data ∧
        EMERGENCY_MESSAGES.lookup cat = some msg ∧
        (check_safety text).emergency_message = some msg) ∧
    ((check_safety text).triggered = false →
      (check_safety text).category = none ∧
      (check_safety text).matched_phrase = none ∧
      (check_safety text).emergency_message = none) := by
  rcases check_safety_cases text with ⟨hv, _⟩ | ⟨cat, phrases, phrase, hct, hp, hsub, hv⟩
  · rw [hv]
    exact ⟨fun h => by simp at h, fun _ => ⟨rfl, rfl, rfl⟩⟩
  · rw [hv]
    refine ⟨fun _ => ?_, fun h => by simp at h⟩
    obtain ⟨msg, hmsg⟩ := lookup_message_of_mem_triggers hct
    exact ⟨cat, phrases, phrase, msg, rfl, rfl, hct, hp,
      substrB_eq_true_iff.mp hsub, hmsg, by simp [hmsg]⟩

/-- C10 witness: the well-formedness theorem applied to the concrete
triggering input "I have chest pain" and the non-triggering input
"hello doctor". -/
theorem check_safety_verdict_wf_witness :
    (∃ cat phrases phrase msg,
      (check_safety "I have chest pain").category = some cat ∧
      (check_safety "I have chest pain").matched_phrase = some phrase ∧
      (cat, phrases) ∈ EMERGENCY_TRIGGERS ∧ phrase ∈ phrases ∧
      phrase.data <:+: (strLower "I have chest pain").data ∧
      EMERGENCY_MESSAGES.lookup cat = some msg ∧
      (check_safety "I have chest pain").emergency_message = some msg) ∧
    (check_safety "hello doctor").category = none ∧
    (check_safety "hello doctor").matched_phrase = none ∧
    (check_safety "hello doctor").emergency_message = none :=
  ⟨(check_safety_verdict_wf "I have chest pain").1 (by decide),
   (check_safety_verdict_wf "hello doctor").2 (by decide)⟩

/-! ## Claim C7 (corrected) -/

/-- C7 counterexample: the phrase "stroke" triggers category "stroke" on the
text "stroke", and "stroke" is a substring of the lowercase form of
"chest pain stroke", yet that text yields category "cardiac", not "stroke":
the scan returns the first matching category in table order, so the
category is not preserved under substring containment. -/
theorem check_safety_category_not_monotone :
    (check_safety "stroke").triggered = true ∧
    (check_safety "stroke").category = some "stroke" ∧
    (check_safety "stroke").matched_phrase = some "stroke" ∧
    substrB "stroke" (strLower "chest pain stroke") = true ∧
    (check_safety "chest pain stroke").triggered = true ∧
    (check_safety "chest pain stroke").category = some "cardiac" ∧
    ("cardiac" : String) ≠ "stroke" := by decide

/-- C7 amended: the *triggered* flag is monotonic under substring
containment: if some text yields a verdict with matched phrase `P`, then
every text containing `P` in its lowercase form also triggers — though
possibly with a different category, namely the first one in scan order
with a matching phrase. -/
theorem check_safety_triggered_monotone (P t₂ : String)
    (t₁ : String)
    (h₁ : (check_safety t₁).matched_phrase = some P)
    (h₂ : substrB P (strLower t₂) = true) :
    (check_safety t₂).triggered = true := by
  rcases check_safety_cases t₁ with ⟨hv, _⟩ | ⟨cat, phrases, phrase, hct, hp, _, hv⟩
  · rw [hv] at h₁; simp at h₁
  · rw [hv] at h₁
    have hPp : phrase = P := by simpa using h₁
    subst hPp
    rcases check_safety_cases t₂ with ⟨_, hnone⟩ | ⟨_, _, _, _, _, _, hv₂⟩
    · have := hnone (cat, phrases) hct phrase hp
      rw [h₂] at this; simp at this
    · rw [hv₂]

/-- C7 witness: the amended monotonicity applied to phrase "stroke",
trigger text "stroke" and the containing text "I had a stroke yesterday". -/
theorem check_safety_triggered_monotone_witness :
    (check_safety "I had a stroke yesterday").triggered = true :=
  check_safety_triggered_monotone "stroke" "I had a stroke yesterday" "stroke"
    (by decide) (by decide)

/-! ## Claim C1 -/

/-- A string spliced between two others occurs in the result as a
substring. -/
theorem substr_middle (a b msg : String) : msg.data <:+: (a ++ msg ++ b).data := by
  simp only [String.data_append]
  exact List.infix_append _ _ _

/-- Helper: when `check_safety` reports a category, the verdict is triggered
and `emergency_message` is the message table entry for that category. -/
theorem check_safety_of_category {question cat : String}
    (hcat : (check_safety question).category = some cat) :
    (check_safety question).triggered = true ∧
    ∃ msg, EMERGENCY_MESSAGES.lookup cat = some msg ∧
      (check_safety question).emergency_message = some msg := by
  rcases check_safety_cases question with ⟨hv, _⟩ |
    ⟨cat', phrases, phrase, hct, _, _, hv⟩
  · rw [hv] at hcat; simp at hcat
  · rw [hv] at hcat ⊢
    have hc : cat' = cat := by simpa using hcat
    subst hc
    obtain ⟨msg, hmsg⟩ := lookup_message_of_mem_triggers hct
    exact ⟨rfl, msg, hmsg, by simp [hmsg]⟩

/-- C1: whenever the question matches an emergency trigger (here: yields
category `cat`), `run_rag` short-circuits before any retrieval or
synthesis: it returns `safety_triggered = true`, an empty citation list,
an empty retrieved list, `emergency_message` equal to the matched
category's fixed message-table entry `msg`, and an answer containing
`msg` as a substring. -/
theorem run_rag_safety_short_circuit (hindi : Bool) (minScore : ℚ)
    (retrieve : String → List RetrievalResult)
    (ollama : String → List RetrievalResult → String)
    (question : String) (chunks : List String)
    (chunk_db_ids : List Nat) (source_names : List String) (cat msg : String)
    (hcat : (check_safety question).category = some cat)
    (hmsg : EMERGENCY_MESSAGES.lookup cat = some msg) :
    (run_rag hindi minScore retrieve ollama question chunks
        chunk_db_ids source_names).safety_triggered = true ∧
    (run_rag hindi minScore retrieve ollama question chunks
        chunk_db_ids source_names).citations = [] ∧
    (run_rag hindi minScore retrieve ollama question chunks
        chunk_db_ids source_names).retrieved = [] ∧
    (run_rag hindi minScore retrieve ollama question chunks
        chunk_db_ids source_names).emergency_message = some msg ∧
    msg.data <:+: (run_rag hindi minScore retrieve ollama question chunks
        chunk_db_ids source_names).answer.data := by
  obtain ⟨htrig, msg', hmsg', hem⟩ := check_safety_of_category hcat
  rw [hmsg'] at hmsg
  have hmm : msg' = msg := Option.some.inj hmsg
  subst hmm
  have hgetD : (check_safety question).emergency_message.getD "" = msg' := by
    rw [hem]; rfl
  have hrun : run_rag hindi minScore retrieve ollama question chunks
      chunk_db_ids source_names =
      { answer := emergencyAnswer hindi msg', citations := [],
        safety_triggered := true, emergency_message := some msg',
        retrieved := [] } := by
    simp only [run_rag, htrig, if_true, hgetD, hem, Option.getD_some]
  rw [hrun]
  refine ⟨rfl, rfl, rfl, rfl, ?_⟩
  show msg'.data <:+: (emergencyAnswer hindi msg').data
  cases hindi
  · have he : emergencyAnswer false msg' = "⚠️ " ++ msg' ++
        (" Please call emergency services immediately " ++
         "(911 / 999 / 112). " ++
         "Do not rely on this tool in an emergency.") := by
      simp [emergencyAnswer, String.append_assoc]
    rw [he]; exact substr_middle _ _ _
  · have he : emergencyAnswer true msg' = "⚠️ " ++ msg' ++
        (" कृपया तुरंत आपातकालीन सेवाओं को कॉल करें (112)। " ++
         "आपात स्थिति में इस उपकरण पर निर्भर न रहें।") := by
      simp [emergencyAnswer, String.append_assoc]
    rw [he]; exact substr_middle _ _ _

/-- C1 witness: for the question "I have chest pain" the matched category is
"cardiac"; the pipeline result has `safety_triggered = true`, empty
citations and retrieved lists, the fixed cardiac emergency message, and an
answer containing both that message and the words "cardiac emergency". -/
theorem run_rag_safety_short_circuit_witness :
    (check_safety "I have chest pain").category = some "cardiac" ∧
    (run_rag false 0 (fun _ => []) (fun _ _ => "") "I have chest pain"
        [] [] []).safety_triggered = true ∧
    (run_rag false 0 (fun _ => []) (fun _ _ => "") "I have chest pain"
        [] [] []).citations = [] ∧
    (run_rag false 0 (fun _ => []) (fun _ _ => "") "I have chest pain"
        [] [] []).retrieved = [] ∧
    (run_rag false 0 (fun _ => []) (fun _ _ => "") "I have chest pain"
        [] [] []).emergency_message =
      some "This sounds like a possible cardiac emergency." ∧
    ("This sounds like a possible cardiac emergency." : String).data <:+:
      (run_rag false 0 (fun _ => []) (fun _ _ => "") "I have chest pain"
        [] [] []).answer.data ∧
    substrB "cardiac emergency"
      (run_rag false 0 (fun _ => []) (fun _ _ => "") "I have chest pain"
        [] [] []).answer = true := by
  have h := run_rag_safety_short_circuit false 0 (fun _ => []) (fun _ _ => "")
    "I have chest pain" [] [] [] "cardiac"
    "This sounds like a possible cardiac emergency." (by decide) (by decide)
  exact ⟨by decide, h.1, h.2.1, h.2.2.1, h.2.2.2.1, h.2.2.2.2, by decide⟩

/-! ## Claim C2 -/

/-- C2: `is_retrieval_sufficient` is true exactly when the result list is
non-empty and some result's score meets the configured minimum threshold;
and on every `run_rag` call with a non-triggering question and non-empty
chunk list, if the retrieved results are insufficient the pipeline returns
the fixed "don't know" answer of the active language, empty citations, and
the retrieved results unchanged. -/
theorem is_retrieval_sufficient_spec (minScore : ℚ) (rs : List RetrievalResult) :
    (is_retrieval_sufficient minScore rs = true ↔
      rs ≠ [] ∧ ∃ r ∈ rs, minScore ≤ r.score) ∧
    (∀ (hindi : Bool) (retrieve : String → List RetrievalResult)
        (ollama : String → List RetrievalResult → String)
        (question : String) (chunks : List String)
        (chunk_db_ids : List Nat) (source_names : List String),
      (check_safety question).triggered = false →
      chunks ≠ [] →
      retrieve question = rs →
      is_retrieval_sufficient minScore rs = false →
      run_rag hindi minScore retrieve ollama question chunks
          chunk_db_ids source_names =
        { answer := if hindi then DONT_KNOW_HI else DONT_KNOW_EN,
          citations := [], safety_triggered := false,
          emergency_message := none, retrieved := rs }) := by
  constructor
  · cases rs with
    | nil => simp [is_retrieval_sufficient]
    | cons a as =>
      simp [is_retrieval_sufficient, List.any_eq_true]
  · intro hindi retrieve ollama question chunks chunk_db_ids source_names
      htrig hchunks hret hins
    have hemp : chunks.isEmpty = false := by
      cases chunks with
      | nil => exact absurd rfl hchunks
      | cons a as => rfl
    simp only [run_rag, htrig, Bool.false_eq_true, if_false, hemp, hret,
      hins, Bool.not_false, if_true]

/-- C2 witness: with threshold 0, a single retrieved result scoring -1 is
insufficient, and the concrete pipeline call returns the English "don't
know" response with empty citations and the retrieved result passed
through. -/
theorem is_retrieval_sufficient_spec_witness :
    run_rag false 0 (fun _ => [⟨0, "x", (-1 : ℚ)⟩]) (fun _ _ => "LLM")
      "what do my results show" ["doc one"] [1] ["r.pdf"] =
      { answer := DONT_KNOW_EN, citations := [], safety_triggered := false,
        emergency_message := none, retrieved := [⟨0, "x", (-1 : ℚ)⟩] } := by
  have h := (is_retrieval_sufficient_spec 0 [⟨0, "x", (-1 : ℚ)⟩]).2 false
    (fun _ => [⟨0, "x", (-1 : ℚ)⟩]) (fun _ _ => "LLM")
    "what do my results show" ["doc one"] [1] ["r.pdf"]
    (by decide) (by decide) rfl (by decide)
  exact h.trans rfl

/-! ## Claim C9 (corrected) -/

/-- C9 counterexample: `run_rag` does not treat an empty question as an
input error.  With a non-empty chunk list and an empty question string, the
pipeline proceeds to retrieval and synthesis, and its answer is whatever the
synthesizer returns — two different synthesizer oracles give two different
answers, and neither is any of the fixed informational messages. -/
theorem run_rag_empty_question_not_fixed :
    (run_rag false 0 (fun _ => [⟨0, "chunk text", 1⟩]) (fun _ _ => "reply A")
      "" ["doc"] [] []).answer = "reply A" ∧
    (run_rag false 0 (fun _ => [⟨0, "chunk text", 1⟩]) (fun _ _ => "reply B")
      "" ["doc"] [] []).answer = "reply B" ∧
    ("reply A" : String) ≠ "reply B" ∧
    ("reply A" : String) ≠ NO_DOCS_EN ∧ ("reply A" : String) ≠ NO_DOCS_HI ∧
    ("reply A" : String) ≠ DONT_KNOW_EN ∧
    ("reply A" : String) ≠ DONT_KNOW_HI := by decide

/-- C9 amended: `run_rag` handles the empty-collection input error locally:
for every call with a non-triggering question and an empty chunk list it
returns the fixed no-documents message of the active language with empty
citations, and, being a total function, surfaces no exception.  An empty
question is not specially handled inside `run_rag`; it is rejected by the
chat route before `run_rag` is called. -/
theorem run_rag_no_docs (hindi : Bool) (minScore : ℚ)
    (retrieve : String → List RetrievalResult)
    (ollama : String → List RetrievalResult → String)
    (question : String) (chunk_db_ids : List Nat) (source_names : List String)
    (htrig : (check_safety question).triggered = false) :
    run_rag hindi minScore retrieve ollama question [] chunk_db_ids
        source_names =
      { answer := if hindi then NO_DOCS_HI else NO_DOCS_EN, citations := [],
        safety_triggered := false, emergency_message := none,
        retrieved := [] } := by
  simp only [run_rag, htrig, Bool.false_eq_true, if_false, List.isEmpty_nil,
    if_true]

/-- C9 witness: a concrete call with a non-triggering question and no chunks
returns the English no-documents message. -/
theorem run_rag_no_docs_witness :
    run_rag false 0 (fun _ => []) (fun _ _ => "") "what is my hemoglobin"
      [] [] [] =
      { answer := NO_DOCS_EN, citations := [], safety_triggered := false,
        emergency_message := none, retrieved := [] } :=
  (run_rag_no_docs false 0 (fun _ => []) (fun _ _ => "")
    "what is my hemoglobin" [] [] (by decide)).trans rfl

/-! ## Claim C6 -/

/-- C6: on the synthesis path (question not triggering, chunks non-empty,
retrieval sufficient), `run_rag` builds exactly one citation per retrieved
result, in retrieval order, with positional labels `"[i+1]"`; the citation's
chunk id is the `chunk_db_ids` entry at the result's chunk ordinal (`none`
when that entry is missing) and its source label is the `source_names`
entry at that ordinal, falling back to `"Document"` when missing — no
failure in either case (`run_rag` is total). -/
theorem run_rag_citations_spec (hindi : Bool) (minScore : ℚ)
    (retrieve : String → List RetrievalResult)
    (ollama : String → List RetrievalResult → String)
    (question : String) (chunks : List String)
    (chunk_db_ids : List Nat) (source_names : List String)
    (htrig : (check_safety question).triggered = false)
    (hchunks : chunks ≠ [])
    (hsuff : is_retrieval_sufficient minScore (retrieve question) = true) :
    (run_rag hindi minScore retrieve ollama question chunks chunk_db_ids
        source_names).citations.length = (retrieve question).length ∧
    ∀ i res, (retrieve question).get? i = some res →
      (run_rag hindi minScore retrieve ollama question chunks chunk_db_ids
          source_names).citations.get? i = some
        { label := "[" ++ toString (i + 1) ++ "]",
          chunk_id := chunk_db_ids.get? res.chunk_index,
          source_doc := (source_names.get? res.chunk_index).getD "Document",
          excerpt := strTake res.text 300 } := by
  have hemp : chunks.isEmpty = false := by
    cases chunks with
    | nil => exact absurd rfl hchunks
    | cons a as => rfl
  have hrun : (run_rag hindi minScore retrieve ollama question chunks
      chunk_db_ids source_names).citations =
      (retrieve question).enum.map (fun ir =>
        { label := "[" ++ toString (ir.1 + 1) ++ "]",
          chunk_id := chunk_db_ids.get? ir.2.chunk_index,
          source_doc := (source_names.get? ir.2.chunk_index).getD "Document",
          excerpt := strTake ir.2.text 300 : Citation }) := by
    simp only [run_rag, htrig, Bool.false_eq_true, if_false, hemp, hsuff,
      Bool.not_true]
  rw [hrun]
  constructor
  · simp [List.enum_length]
  · intro i res hres
    simp only [List.get?_eq_getElem?] at hres ⊢
    simp [List.getElem?_map, List.getElem?_enum, hres]

/-- C6 witness: two retrieved results, the second referring to a chunk
ordinal with no database id and no source name: the citations are labelled
"[1]" and "[2]", the missing id becomes `none` and the missing source name
becomes "Document". -/
theorem run_rag_citations_spec_witness :
    (run_rag false 0 (fun _ => [⟨0, "text zero", 1⟩, ⟨5, "text five", 1⟩])
      (fun _ _ => "LLM") "what is this" ["a", "b"] [10] []).citations =
      [⟨"[1]", some 10, "Document", "text zero"⟩,
       ⟨"[2]", none, "Document", "text five"⟩] := by
  have h := run_rag_citations_spec false 0
    (fun _ => [⟨0, "text zero", 1⟩, ⟨5, "text five", 1⟩]) (fun _ _ => "LLM")
    "what is this" ["a", "b"] [10] [] (by decide) (by decide) (by decide)
  have h1 := h.2 0 ⟨0, "text zero", 1⟩ rfl
  have h2 := h.2 1 ⟨5, "text five", 1⟩ rfl
  have hlen := h.1
  cases hc : (run_rag false 0
      (fun _ => [⟨0, "text zero", 1⟩, ⟨5, "text five", 1⟩]) (fun _ _ => "LLM")
      "what is this" ["a", "b"] [10] []).citations with
  | nil => rw [hc] at hlen; simp at hlen
  | cons c0 rest =>
    cases rest with
    | nil => rw [hc] at hlen; simp at hlen
    | cons c1 rest2 =>
      cases rest2 with
      | cons c2 rest3 => rw [hc] at hlen; simp at hlen
      | nil =>
        rw [hc] at h1 h2
        simp only [List.get?_eq_getElem?] at h1 h2
        have e0 : c0 = ⟨"[1]", some 10, "Document", "text zero"⟩ := by
          have := h1; simp at this; rw [this]; decide
        have e1 : c1 = ⟨"[2]", none, "Document", "text five"⟩ := by
          have := h2; simp at this; rw [this]; decide
        rw [e0, e1]

/-! ## Claim C8 (code bug) -/

/-- C8: `chunk_text` contains no assertion guarding `overlap >= chunk_size`.
On the failing input `chunk_text("a b c", chunk_size=2, overlap=2)` the
loop body runs (the guard `start < len(words)` holds and the break
`end >= len(words)` does not fire) and the next loop state is again
`start = 0`: the update `start += chunk_size - overlap` adds zero, so the
loop re-runs forever with an unchanged state instead of failing fast. -/
theorem chunk_text_overlap_eq_size_no_progress :
    pythonLoopStep ["a", "b", "c"] 2 2 0 = some 0 ∧
    ∀ n : Nat,
      (fun st => ((pythonLoopStep ["a", "b", "c"] 2 2 st).getD st))^[n] 0 = 0 := by
  refine ⟨by decide, ?_⟩
  intro n
  induction n with
  | zero => rfl
  | succ n ih =>
    rw [Function.iterate_succ_apply]
    have h : ((pythonLoopStep ["a", "b", "c"] 2 2 0).getD 0) = 0 := by decide
    rw [h]
    exact ih

/-! ## Claim C3 -/

/-- The `lines` accumulator of `_fallback_answer`, named so the theorems can
speak about the two output branches: for each of the first 3 retrieved
results that has meaningful lines, the label `"[i+1] "` followed by the
first 4 meaningful lines joined by `" | "`. -/
def fallbackLines (retrieved : List RetrievalResult) : List String :=
  (retrieved.take 3).enum.filterMap (fun ir =>
    if (meaningfulLines ir.2.text).isEmpty then none
    else some ("[" ++ toString (ir.1 + 1) ++ "] " ++
      joinSep " | " ((meaningfulLines ir.2.text).take 4)))

/-- A string is a suffix of anything extended to its left. -/
theorem suffix_of_append_left (a pad line : String) :
    line.data <:+ (a ++ (pad ++ line)).data := by
  simp only [String.data_append]
  exact (List.suffix_append _ _).trans (List.suffix_append _ _)

/-- Unfolding of `fallbackAnswer` in terms of `fallbackLines` (definitional). -/
theorem fallbackAnswer_eq (hindi : Bool) (retrieved : List RetrievalResult) :
    fallbackAnswer hindi retrieved =
      if !(fallbackLines retrieved).isEmpty then
        (if hindi then "आपके दस्तावेज़ों से:\n\n" else "From your documents:\n\n") ++
        joinSep "\n" (fallbackLines retrieved) ++
        (if hindi then "\n\n" ++ DISCLAIMER_LINE_HI
          else "\n\n" ++ DISCLAIMER_LINE_EN)
      else
        (if hindi then "आपके दस्तावेज़ों से [1]: " else "From your documents [1]: ") ++
        (match retrieved.head? with
          | some r => strTake r.text 300
          | none => "") ++ "..." ++
        (if hindi then "\n\n" ++ DISCLAIMER_LINE_HI
          else "\n\n" ++ DISCLAIMER_LINE_EN) := rfl

/-- C3: for every non-empty retrieved list, the offline fallback answer
(1) depends only on the first 3 retrieved chunks; (2) keeps, per chunk, at
most 4 stripped lines, each longer than 10 characters and containing a lab
keyword (uppercased); (3) when some chunk has a matching line, the output
is the language prefix, the chunk blocks (each prefixed by its citation
label "[i]") joined by newlines, and the disclaimer; otherwise it is the
top chunk's text truncated to 300 characters between the fixed fallback
prefix, "...", and the disclaimer; and in every case the output is
non-empty and ends with the fixed disclaimer line also mandated by the
primary path's system prompt. -/
theorem fallbackAnswer_spec (hindi : Bool) (retrieved : List RetrievalResult)
    (hne : retrieved ≠ []) :
    fallbackAnswer hindi retrieved = fallbackAnswer hindi (retrieved.take 3) ∧
    (∀ text, ∀ l ∈ (meaningfulLines text).take 4,
      10 < l.length ∧ ∃ kw ∈ LAB_KEYWORDS, kw.data <:+: (strUpper l).data) ∧
    (fallbackLines retrieved ≠ [] →
      fallbackAnswer hindi retrieved =
        (if hindi then "आपके दस्तावेज़ों से:\n\n" else "From your documents:\n\n") ++
        joinSep "\n" (fallbackLines retrieved) ++
        ("\n\n" ++ (if hindi then DISCLAIMER_LINE_HI else DISCLAIMER_LINE_EN))) ∧
    (∀ r0, fallbackLines retrieved = [] → retrieved.head? = some r0 →
      fallbackAnswer hindi retrieved =
        (if hindi then "आपके दस्तावेज़ों से [1]: " else "From your documents [1]: ") ++
        strTake r0.text 300 ++ "..." ++
        ("\n\n" ++ (if hindi then DISCLAIMER_LINE_HI else DISCLAIMER_LINE_EN))) ∧
    fallbackAnswer hindi retrieved ≠ "" ∧
    (if hindi then DISCLAIMER_LINE_HI else DISCLAIMER_LINE_EN).data <:+
      (fallbackAnswer hindi retrieved).data := by
  have htake : fallbackAnswer hindi retrieved =
      fallbackAnswer hindi (retrieved.take 3) := by
    have h1 : fallbackLines (retrieved.take 3) = fallbackLines retrieved := by
      simp [fallbackLines, List.take_take]
    rw [fallbackAnswer_eq, fallbackAnswer_eq, h1, List.head?_take]
    simp
  have hkw : ∀ text, ∀ l ∈ (meaningfulLines text).take 4,
      10 < l.length ∧ ∃ kw ∈ LAB_KEYWORDS, kw.data <:+: (strUpper l).data := by
    intro text l hl
    have hmem := List.mem_of_mem_take hl
    simp only [meaningfulLines, List.mem_filter, Bool.and_eq_true,
      decide_eq_true_eq, List.any_eq_true] at hmem
    obtain ⟨-, hlen, kw, hkwmem, hsub⟩ := hmem
    exact ⟨hlen, kw, hkwmem, substrB_eq_true_iff.mp hsub⟩
  have hbranch1 : fallbackLines retrieved ≠ [] →
      fallbackAnswer hindi retrieved =
        (if hindi then "आपके दस्तावेज़ों से:\n\n" else "From your documents:\n\n") ++
        joinSep "\n" (fallbackLines retrieved) ++
        ("\n\n" ++ (if hindi then DISCLAIMER_LINE_HI else DISCLAIMER_LINE_EN)) := by
    intro hl
    have hl' : (fallbackLines retrieved).isEmpty = false := by
      cases h : fallbackLines retrieved with
      | nil => exact absurd h hl
      | cons a as => rfl
    rw [fallbackAnswer_eq, hl']
    cases hindi <;> simp
  have hbranch2 : ∀ r0, fallbackLines retrieved = [] → retrieved.head? = some r0 →
      fallbackAnswer hindi retrieved =
        (if hindi then "आपके दस्तावेज़ों से [1]: " else "From your documents [1]: ") ++
        strTake r0.text 300 ++ "..." ++
        ("\n\n" ++ (if hindi then DISCLAIMER_LINE_HI else DISCLAIMER_LINE_EN)) := by
    intro r0 hl hh
    have hl' : (fallbackLines retrieved).isEmpty = true := by rw [hl]; rfl
    rw [fallbackAnswer_eq, hl', hh]
    cases hindi <;> simp
  have hsuffix : (if hindi then DISCLAIMER_LINE_HI else DISCLAIMER_LINE_EN).data <:+
      (fallbackAnswer hindi retrieved).data := by
    cases hl : fallbackLines retrieved with
    | cons a as =>
      rw [hbranch1 (by rw [hl]; simp)]
      exact suffix_of_append_left _ _ _
    | nil =>
      obtain ⟨r0, hh⟩ : ∃ r0, retrieved.head? = some r0 := by
        cases retrieved with
        | nil => exact absurd rfl hne
        | cons a as => exact ⟨a, rfl⟩
      rw [hbranch2 r0 hl hh]
      exact suffix_of_append_left _ _ _
  refine ⟨htake, hkw, hbranch1, hbranch2, ?_, hsuffix⟩
  intro hempty
  have hlen := hsuffix.length_le
  rw [hempty] at hlen
  cases hindi <;> simp at hlen <;> exact absurd hlen (by decide)

/-- C3 witness: a single retrieved chunk whose text has one lab-keyword
line; the fallback output is that line labelled "[1]" under the English
prefix, is non-empty, and ends with the English disclaimer line. -/
theorem fallbackAnswer_spec_witness :
    fallbackAnswer false [⟨0, "SODIUM RESULT NORMAL 140\nok", 1⟩] =
      "From your documents:\n\n[1] SODIUM RESULT NORMAL 140\n\n" ++
        DISCLAIMER_LINE_EN ∧
    fallbackAnswer false [⟨0, "SODIUM RESULT NORMAL 140\nok", 1⟩] ≠ "" ∧
    DISCLAIMER_LINE_EN.data <:+
      (fallbackAnswer false [⟨0, "SODIUM RESULT NORMAL 140\nok", 1⟩]).data := by
  have h := fallbackAnswer_spec false [⟨0, "SODIUM RESULT NORMAL 140\nok", 1⟩]
    (by decide)
  exact ⟨by decide, h.2.2.2.2.1, h.2.2.2.2.2⟩

/-! ## Chunker lemmas: the word splitter -/

theorem splitAllWS_ne_nil (l : List Char) : splitAllWS l ≠ [] := by
  induction l with
  | nil => simp [splitAllWS]
  | cons c cs ih =>
    cases hw : c.isWhitespace
    · simp only [splitAllWS, hw, Bool.false_eq_true, if_false]
      cases h : splitAllWS cs <;> simp
    · simp [splitAllWS, hw]

theorem splitWS_nil_of_all_ws {l : List Char} (h : ∀ c ∈ l, c.isWhitespace = true) :
    splitWS l = [] := by
  induction l with
  | nil => rfl
  | cons c cs ih =>
    have hc : c.isWhitespace = true := h c (by simp)
    have ih' := ih (fun d hd => h d (by simp [hd]))
    rw [splitWS, splitAllWS] at *
    simp only [hc, if_true, List.filter_cons]
    simpa using ih'

theorem mem_splitAllWS_not_ws {l : List Char} :
    ∀ w ∈ splitAllWS l, ∀ c ∈ w, c.isWhitespace = false := by
  induction l with
  | nil =>
    intro w hw c hc
    simp [splitAllWS] at hw
    subst hw
    simp at hc
  | cons d ds ih =>
    cases hw : d.isWhitespace
    · simp only [splitAllWS, hw, Bool.false_eq_true, if_false]
      cases h2 : splitAllWS ds with
      | nil => exact absurd h2 (splitAllWS_ne_nil ds)
      | cons p ps =>
        intro w hwmem c hc
        rcases List.mem_cons.mp hwmem with rfl | hmem
        · rcases List.mem_cons.mp hc with rfl | hcp
          · exact hw
          · exact ih p (by rw [h2]; exact List.mem_cons_self _ _) c hcp
        · exact ih w (by rw [h2]; exact List.mem_cons_of_mem _ hmem) c hc
    · simp only [splitAllWS, hw, if_true]
      intro w hwmem c hc
      rcases List.mem_cons.mp hwmem with rfl | hmem
      · simp at hc
      · exact ih w hmem c hc

theorem mem_splitWS {l : List Char} :
    ∀ w ∈ splitWS l, w ≠ [] ∧ ∀ c ∈ w, c.isWhitespace = false := by
  intro w hw
  rw [splitWS] at hw
  obtain ⟨hmem, hcond⟩ := List.mem_filter.mp hw
  refine ⟨?_, mem_splitAllWS_not_ws w hmem⟩
  simp only [Bool.not_eq_true'] at hcond
  exact List.isEmpty_eq_false.mp hcond

theorem mem_splitWords {t : String} :
    ∀ w ∈ splitWords t, w.data ≠ [] ∧ ∀ c ∈ w.data, c.isWhitespace = false := by
  intro w hw
  rw [splitWords] at hw
  obtain ⟨wc, hwc, rfl⟩ := List.mem_map.mp hw
  exact mem_splitWS wc hwc

theorem splitAllWS_word_append {w : List Char}
    (hw : ∀ c ∈ w, c.isWhitespace = false) (l : List Char) :
    ∀ p ps, splitAllWS l = p :: ps → splitAllWS (w ++ l) = (w ++ p) :: ps := by
  induction w with
  | nil => intro p ps h; simpa using h
  | cons c cw ih =>
    intro p ps h
    have hc : c.isWhitespace = false := hw c (by simp)
    have ih' := ih (fun d hd => hw d (by simp [hd])) p ps h
    simp only [List.cons_append, splitAllWS, hc, Bool.false_eq_true, if_false,
      List.append_eq, ih']

theorem splitAllWS_ws_cons {c : Char} (hc : c.isWhitespace = true)
    (l : List Char) : splitAllWS (c :: l) = [] :: splitAllWS l := by
  simp [splitAllWS, hc]

/-- Round trip: splitting a single-space join of non-empty whitespace-free
words recovers exactly those words (character-list level). -/
theorem splitWS_joinSep (ws : List String)
    (h : ∀ w ∈ ws, w.data ≠ [] ∧ ∀ c ∈ w.data, c.isWhitespace = false) :
    splitWS (joinSep " " ws).data = ws.map String.data := by
  induction ws with
  | nil => rfl
  | cons x xs ih =>
    obtain ⟨hx, hxc⟩ := h x (by simp)
    have hxe : (!x.data.isEmpty) = true := by
      cases hd : x.data with
      | nil => exact absurd hd hx
      | cons _ _ => rfl
    cases xs with
    | nil =>
      have h1 : splitAllWS (x.data ++ []) = (x.data ++ []) :: [] :=
        splitAllWS_word_append hxc [] [] [] rfl
      rw [List.append_nil] at h1
      show splitWS x.data = [x.data]
      rw [splitWS, h1, List.filter_cons, hxe]
      rfl
    | cons y ys =>
      have ihh := ih (fun w hw => h w (by simp [hw]))
      have hdata : (joinSep " " (x :: y :: ys)).data =
          x.data ++ (' ' :: (joinSep " " (y :: ys)).data) := by
        show (x ++ " " ++ joinSep " " (y :: ys)).data = _
        simp [String.data_append]
      have h2 := splitAllWS_ws_cons (c := ' ') (by decide)
        (joinSep " " (y :: ys)).data
      have h3 := splitAllWS_word_append hxc _ _ _ h2
      rw [List.append_nil] at h3
      rw [splitWS, hdata, h3, List.filter_cons, hxe]
      simp only [if_true]
      show x.data :: splitWS (joinSep " " (y :: ys)).data = _
      rw [ihh]
      rfl

/-- Round trip at the `String` level. -/
theorem splitWords_joinSep (ws : List String)
    (h : ∀ w ∈ ws, w.data ≠ [] ∧ ∀ c ∈ w.data, c.isWhitespace = false) :
    splitWords (joinSep " " ws) = ws := by
  rw [splitWords, splitWS_joinSep ws h, List.map_map]
  have hid : ((fun w => (⟨w⟩ : String)) ∘ String.data) = id := by
    funext w
    rfl
  rw [hid, List.map_id]

theorem all_ws_of_trimChars_nil {l : List Char} (h : trimChars l = []) :
    ∀ c ∈ l, c.isWhitespace = true := by
  rw [trimChars, List.reverse_eq_nil_iff] at h
  have h3 : ∀ c ∈ l.dropWhile Char.isWhitespace, c.isWhitespace = true :=
    fun c hc => List.dropWhile_eq_nil_iff.mp h c (List.mem_reverse.mpr hc)
  intro c hc
  rw [← List.takeWhile_append_dropWhile Char.isWhitespace l] at hc
  rcases List.mem_append.mp hc with h4 | h4
  · exact List.mem_takeWhile_imp h4
  · exact h3 c h4

theorem trimChars_nil_of_all_ws {l : List Char}
    (h : ∀ c ∈ l, c.isWhitespace = true) : trimChars l = [] := by
  rw [trimChars, List.dropWhile_eq_nil_iff.mpr h]
  rfl

/-! ## Chunker lemmas: loop characterization -/

/-- Number of loop iterations of `chunk_text` starting from position `st`
when `step = chunk_size - overlap ≥ 1`: `⌈(len - st - size) / step⌉ + 1`. -/
def numChunksFrom (len sz step st : Nat) : Nat :=
  ((len - st - sz) + step - 1) / step + 1

theorem ceil_div_succ (A step : Nat) (hA : 1 ≤ A) (hs : 1 ≤ step) :
    (A + step - 1) / step = ((A - step) + step - 1) / step + 1 := by
  rcases le_or_lt A step with hcase | hcase
  · have h1 : A - step = 0 := by omega
    have h3 : A + step - 1 = (A - 1) + step := by omega
    rw [h1, h3, Nat.add_div_right _ hs]
    have h4 : (A - 1) / step = 0 := Nat.div_eq_of_lt (by omega)
    have h5 : (0 + step - 1) / step = 0 := Nat.div_eq_of_lt (by omega)
    omega
  · have h3 : A + step - 1 = ((A - step) + step - 1) + step := by omega
    rw [h3, Nat.add_div_right _ hs]

/-- With `overlap < chunk_size` and enough fuel, the loop from `st` produces
exactly the window slices starting at `st, st + step, st + 2·step, …`. -/
theorem chunkLoopW_eq (sz o : Nat) (hso : o < sz) (words : List String) :
    ∀ fuel st, st < words.length →
      words.length - st ≤ fuel * (sz - o) →
    chunkLoopW sz o words fuel st =
      (List.range (numChunksFrom words.length sz (sz - o) st)).map
        (fun i => (words.drop (st + i * (sz - o))).take sz) := by
  intro fuel
  induction fuel with
  | zero =>
    intro st h1 h2
    exact absurd h1 (by omega)
  | succ fuel ih =>
    intro st h1 h2
    have h2' : words.length - st ≤ fuel * (sz - o) + (sz - o) := by
      calc words.length - st ≤ (fuel + 1) * (sz - o) := h2
        _ = fuel * (sz - o) + (sz - o) := by ring
    rw [chunkLoopW, if_pos h1]
    by_cases hbreak : words.length ≤ st + sz
    · rw [if_pos hbreak]
      have hA : words.length - st - sz = 0 := by omega
      have hK : numChunksFrom words.length sz (sz - o) st = 1 := by
        rw [numChunksFrom, hA]
        have h0 : (0 + (sz - o) - 1) / (sz - o) = 0 := Nat.div_eq_of_lt (by omega)
        omega
      rw [hK, show List.range 1 = [0] by decide]
      simp
    · rw [if_neg hbreak]
      have hlt : st + sz < words.length := by omega
      have hst' : st + (sz - o) < words.length := by omega
      have hfuel' : words.length - (st + (sz - o)) ≤ fuel * (sz - o) := by
        omega
      rw [ih (st + (sz - o)) hst' hfuel']
      have hA1 : 1 ≤ words.length - st - sz := by omega
      have heq : words.length - (st + (sz - o)) - sz =
          (words.length - st - sz) - (sz - o) := by omega
      have hcd := ceil_div_succ (words.length - st - sz) (sz - o) hA1 (by omega)
      have hcount : numChunksFrom words.length sz (sz - o) st =
          numChunksFrom words.length sz (sz - o) (st + (sz - o)) + 1 := by
        rw [numChunksFrom, numChunksFrom, heq]
        omega
      rw [hcount, List.range_succ_eq_map, List.map_cons, List.map_map]
      congr 1
      · simp
      · apply List.map_congr_left
        intro i hi
        simp only [Function.comp_apply]
        have harith : st + (sz - o) + i * (sz - o) = st + Nat.succ i * (sz - o) := by
          rw [Nat.succ_mul]
          ring
        rw [harith]

/-- `chunk_text` on a text with at least one word, `overlap < chunk_size`:
the window-slice characterization. -/
theorem chunk_text_eq_of_words_ne_nil (t : String) (sz o : Nat) (hso : o < sz)
    (hw : splitWords t ≠ []) :
    chunk_text t sz o =
      (List.range (numChunksFrom (splitWords t).length sz (sz - o) 0)).map
        (fun i => joinSep " " (((splitWords t).drop (i * (sz - o))).take sz)) := by
  have htrim : (strTrim t).data.isEmpty = false := by
    cases hd : (strTrim t).data with
    | cons _ _ => rfl
    | nil =>
      exfalso
      apply hw
      have hws : ∀ c ∈ t.data, c.isWhitespace = true :=
        all_ws_of_trimChars_nil hd
      rw [splitWords, splitWS_nil_of_all_ws hws]
      rfl
  have hwe : (splitWords t).isEmpty = false := by
    cases h : splitWords t with
    | nil => exact absurd h hw
    | cons _ _ => rfl
  have hlenpos : 0 < (splitWords t).length := by
    cases h : splitWords t with
    | nil => exact absurd h hw
    | cons _ _ => simp
  rw [chunk_text, htrim]
  simp only [Bool.false_eq_true, if_false, hwe]
  have hfuel : (splitWords t).length - 0 ≤
      ((splitWords t).length + 1) * (sz - o) := by
    have h1 : 1 ≤ sz - o := by omega
    have h2 := Nat.mul_le_mul_left ((splitWords t).length + 1) h1
    rw [Nat.mul_one] at h2
    omega
  rw [chunkLoopW_eq sz o hso (splitWords t) ((splitWords t).length + 1) 0
    hlenpos hfuel]
  rw [List.map_map]
  apply List.map_congr_left
  intro i hi
  simp

theorem chunk_text_eq_nil_of_words_nil (t : String) (sz o : Nat)
    (hw : splitWords t = []) : chunk_text t sz o = [] := by
  rw [chunk_text]
  by_cases h : (strTrim t).data.isEmpty = true
  · rw [if_pos h]
  · rw [if_neg h]
    simp [hw]

/-- The de-overlapped prefixes of the sliding windows concatenate to an
initial segment of the word list. -/
theorem flatten_window_slices {α : Type} (ws : List α) (step : Nat) :
    ∀ m, ((List.range m).map (fun i => (ws.drop (i * step)).take step)).flatten
      = ws.take (m * step) := by
  intro m
  induction m with
  | zero => simp
  | succ m ih =>
    rw [List.range_succ, List.map_append, List.flatten_append, ih]
    simp only [List.map_cons, List.map_nil, List.flatten_cons,
      List.flatten_nil, List.append_nil]
    have hm : (m + 1) * step = m * step + step := by ring
    rw [hm, List.take_add]

/-- Splitting a window slice joined by single spaces recovers the slice. -/
theorem splitWords_slice (t : String) (a b : Nat) :
    splitWords (joinSep " " (((splitWords t).drop a).take b)) =
      ((splitWords t).drop a).take b :=
  splitWords_joinSep _ (fun w hw =>
    mem_splitWords w (List.mem_of_mem_drop (List.mem_of_mem_take hw)))

/-! ## Claim C4 -/

/-- C4: for `overlap < chunk_size`, (1) empty or whitespace-only text yields
no chunks; (2) chunk `i` is exactly the words at positions
`[i·(size-overlap), i·(size-overlap)+size)` joined by single spaces;
(3) every chunk except the last has exactly `size` words; (4) non-empty
text yields at least one chunk; and (5) the de-overlapped concatenation of
the chunks' word lists (first `size-overlap` words of every chunk but the
last, then all of the last) reconstructs the original token sequence. -/
theorem chunk_text_spec (t : String) (sz o : Nat) (hso : o < sz) :
    ((∀ c ∈ t.data, c.isWhitespace = true) → chunk_text t sz o = []) ∧
    (∀ i, (chunk_text t sz o).get? i =
      if i < (chunk_text t sz o).length then
        some (joinSep " " (((splitWords t).drop (i * (sz - o))).take sz))
      else none) ∧
    (∀ i c, i + 1 < (chunk_text t sz o).length →
      (chunk_text t sz o).get? i = some c → (splitWords c).length = sz) ∧
    (splitWords t ≠ [] → chunk_text t sz o ≠ []) ∧
    (∀ last, (chunk_text t sz o).getLast? = some last →
      ((chunk_text t sz o).dropLast.map
          (fun c => (splitWords c).take (sz - o))).flatten ++ splitWords last =
        splitWords t) := by
  have hempty : (∀ c ∈ t.data, c.isWhitespace = true) → chunk_text t sz o = [] := by
    intro hall
    rw [chunk_text, if_pos]
    show (strTrim t).data.isEmpty = true
    show (trimChars t.data).isEmpty = true
    rw [trimChars_nil_of_all_ws hall]
    rfl
  by_cases hw : splitWords t = []
  · have hnil := chunk_text_eq_nil_of_words_nil t sz o hw
    rw [hnil]
    refine ⟨fun _ => rfl, fun i => by simp, fun i c h => by simp at h,
      fun h => absurd hw h, fun last h => by simp at h⟩
  · have E := chunk_text_eq_of_words_ne_nil t sz o hso hw
    set ws := splitWords t with hws
    set step := sz - o with hstep
    set K := numChunksFrom ws.length sz step 0 with hK
    have hstep1 : 1 ≤ step := by omega
    have hlen : (chunk_text t sz o).length = K := by rw [E]; simp
    have hget : ∀ i, (chunk_text t sz o).get? i =
        if i < (chunk_text t sz o).length then
          some (joinSep " " ((ws.drop (i * step)).take sz))
        else none := by
      intro i
      rw [hlen, List.get?_eq_getElem?, E, List.getElem?_map]
      by_cases hi : i < K
      · rw [if_pos hi, List.getElem?_range hi]
        rfl
      · rw [if_neg hi, List.getElem?_eq_none]
        · rfl
        · simpa using hi
    refine ⟨hempty, hget, ?_, ?_, ?_⟩
    · -- every chunk except the last has exactly sz words
      intro i c hi hc
      rw [hget i, if_pos (by omega)] at hc
      have hc' : c = joinSep " " ((ws.drop (i * step)).take sz) :=
        (Option.some.inj hc).symm
      rw [hc', splitWords_slice]
      rw [hlen, hK, numChunksFrom] at hi
      set q := ((ws.length - 0 - sz) + step - 1) / step with hq
      have hiq : i + 1 ≤ q := by omega
      have hm1 : (i + 1) * step ≤ q * step := Nat.mul_le_mul_right step hiq
      have hm2 : q * step ≤ (ws.length - 0 - sz) + step - 1 :=
        Nat.div_mul_le_self _ _
      have hm3 : (i + 1) * step = i * step + step := by ring
      rw [List.length_take, List.length_drop, ← hws]
      omega
    · -- non-empty text yields chunks
      intro _
      rw [E]
      have : K ≠ 0 := Nat.succ_ne_zero _
      intro hcontra
      rw [List.map_eq_nil_iff, List.range_eq_nil] at hcontra
      exact this hcontra
    · -- reconstruction
      intro last hlast
      have hKq : K = ((ws.length - 0 - sz) + step - 1) / step + 1 := rfl
      set q := ((ws.length - 0 - sz) + step - 1) / step with hq
      have hrange : List.range K = List.range q ++ [q] := by
        rw [hKq]; exact List.range_succ q
      have hsplit : chunk_text t sz o =
          (List.range q).map
            (fun i => joinSep " " ((ws.drop (i * step)).take sz)) ++
          [joinSep " " ((ws.drop (q * step)).take sz)] := by
        rw [E, hrange, List.map_append]
        rfl
      have hlast' : last = joinSep " " ((ws.drop (q * step)).take sz) := by
        rw [hsplit, List.getLast?_concat] at hlast
        exact (Option.some.inj hlast).symm
      have hdrop : (chunk_text t sz o).dropLast =
          (List.range q).map
            (fun i => joinSep " " ((ws.drop (i * step)).take sz)) := by
        rw [hsplit, List.dropLast_concat]
      -- the last window reaches the end of the word list
      have hcover : ws.length - q * step ≤ sz := by
        have hd := Nat.div_add_mod ((ws.length - 0 - sz) + step - 1) step
        have hmod : ((ws.length - 0 - sz) + step - 1) % step < step :=
          Nat.mod_lt _ (by omega)
        have hcomm : q * step = step * q := Nat.mul_comm _ _
        rw [← hq] at hd
        omega
      have hlastwords : splitWords last = ws.drop (q * step) := by
        rw [hlast', splitWords_slice, List.take_of_length_le]
        rw [List.length_drop]
        exact hcover
      rw [hdrop, hlastwords, List.map_map]
      have hmap : ((fun c => (splitWords c).take step) ∘
            (fun i => joinSep " " ((ws.drop (i * step)).take sz))) =
          (fun i => (ws.drop (i * step)).take step) := by
        funext i
        simp only [Function.comp_apply]
        rw [splitWords_slice, List.take_take, Nat.min_eq_left (by omega)]
      rw [hmap, flatten_window_slices, List.take_append_drop]

/-- C4 witness: `chunk_text "a b c d e" 2 1` = ["a b", "b c", "c d", "d e"]:
chunk 1 is "b c" (the words at positions 1..2), whitespace-only input gives
no chunks, and the de-overlapped word lists of the chunks reconstruct the
five original words. -/
theorem chunk_text_spec_witness :
    (chunk_text "a b c d e" 2 1).get? 1 = some "b c" ∧
    chunk_text " \t  " 2 1 = [] ∧
    (chunk_text "a b c d e" 2 1).getLast? = some "d e" ∧
    ((chunk_text "a b c d e" 2 1).dropLast.map
        (fun c => (splitWords c).take (2 - 1))).flatten ++ splitWords "d e" =
      splitWords "a b c d e" := by
  have h := chunk_text_spec "a b c d e" 2 1 (by decide)
  exact ⟨(h.2.1 1).trans (by decide),
    (chunk_text_spec " \t  " 2 1 (by decide)).1 (by decide),
    by decide,
    h.2.2.2.2 "d e" (by decide)⟩

/-! ## Vector store lemmas -/

theorem insertSorted_perm (le : ℚ × Nat → ℚ × Nat → Bool) (x : ℚ × Nat) :
    ∀ l, (insertSorted le x l).Perm (x :: l) := by
  intro l
  induction l with
  | nil => exact List.Perm.refl _
  | cons y ys ih =>
    rw [insertSorted]
    by_cases h : le x y = true
    · rw [if_pos h]
    · rw [if_neg h]
      exact (List.Perm.cons y ih).trans (List.Perm.swap x y ys)

theorem sortByLe_perm (le : ℚ × Nat → ℚ × Nat → Bool) :
    ∀ l, (sortByLe le l).Perm l := by
  intro l
  induction l with
  | nil => exact List.Perm.refl _
  | cons x xs ih =>
    rw [sortByLe]
    exact (insertSorted_perm le x (sortByLe le xs)).trans (List.Perm.cons x ih)

theorem insertSorted_pairwise (le : ℚ × Nat → ℚ × Nat → Bool)
    (htrans : ∀ a b c, le a b = true → le b c = true → le a c = true)
    (htot : ∀ a b, le a b = true ∨ le b a = true) (x : ℚ × Nat) :
    ∀ l, l.Pairwise (fun a b => le a b = true) →
      (insertSorted le x l).Pairwise (fun a b => le a b = true) := by
  intro l
  induction l with
  | nil => intro _; simp [insertSorted]
  | cons y ys ih =>
    intro hp
    obtain ⟨hy, hys⟩ := List.pairwise_cons.mp hp
    rw [insertSorted]
    by_cases h : le x y = true
    · rw [if_pos h]
      refine List.pairwise_cons.mpr ⟨?_, hp⟩
      intro z hz
      rcases List.mem_cons.mp hz with rfl | hmem
      · exact h
      · exact htrans x y z h (hy z hmem)
    · rw [if_neg h]
      have hyx : le y x = true := (htot x y).resolve_left h
      refine List.pairwise_cons.mpr ⟨?_, ih hys⟩
      intro z hz
      rcases List.mem_cons.mp
        ((insertSorted_perm le x ys).mem_iff.mp hz) with rfl | hmem
      · exact hyx
      · exact hy z hmem

theorem sortByLe_pairwise (le : ℚ × Nat → ℚ × Nat → Bool)
    (htrans : ∀ a b c, le a b = true → le b c = true → le a c = true)
    (htot : ∀ a b, le a b = true ∨ le b a = true) :
    ∀ l, (sortByLe le l).Pairwise (fun a b => le a b = true) := by
  intro l
  induction l with
  | nil => simp [sortByLe]
  | cons x xs ih =>
    rw [sortByLe]
    exact insertSorted_pairwise le htrans htot x (sortByLe le xs) ih

theorem faissLe_trans (a b c : ℚ × Nat)
    (hab : faissLe a b = true) (hbc : faissLe b c = true) :
    faissLe a c = true := by
  simp only [faissLe, Bool.or_eq_true, Bool.and_eq_true, decide_eq_true_eq]
    at hab hbc ⊢
  rcases hab with h1 | ⟨h1, h2⟩
  · rcases hbc with h3 | ⟨h3, h4⟩
    · exact Or.inl (h3.trans h1)
    · exact Or.inl (h3 ▸ h1)
  · rcases hbc with h3 | ⟨h3, h4⟩
    · exact Or.inl (by rw [h1]; exact h3)
    · exact Or.inr ⟨h1.trans h3, h2.trans h4⟩

theorem faissLe_total (a b : ℚ × Nat) :
    faissLe a b = true ∨ faissLe b a = true := by
  simp only [faissLe, Bool.or_eq_true, Bool.and_eq_true, decide_eq_true_eq]
  rcases lt_trichotomy a.1 b.1 with h | h | h
  · exact Or.inr (Or.inl h)
  · rcases le_total a.2 b.2 with h2 | h2
    · exact Or.inl (Or.inr ⟨h, h2⟩)
    · exact Or.inr (Or.inr ⟨h.symm, h2⟩)
  · exact Or.inl (Or.inl h)

/-! ## Claim C5 -/

/-- C5: `retrieve_chunks` returns the empty list when no index was built for
the session; otherwise it returns exactly `min top_n (number of chunks)`
results, ordered descending by similarity score with ties broken by
ascending chunk ordinal. -/
theorem retrieve_chunks_spec (index : Int → Option (List String))
    (sim : String → String → ℚ) (session_id : Int) (query : String)
    (top_n : Nat) :
    (index session_id = none →
      retrieve_chunks index sim session_id query top_n = []) ∧
    (∀ chunks, index session_id = some chunks →
      (retrieve_chunks index sim session_id query top_n).length =
        min top_n chunks.length ∧
      (retrieve_chunks index sim session_id query top_n).Pairwise
        (fun a b => b.score < a.score ∨
          (a.score = b.score ∧ a.chunk_index < b.chunk_index))) := by
  constructor
  · intro h
    simp only [retrieve_chunks, h]
  · intro chunks h
    simp only [retrieve_chunks, h, faissSearch]
    set scores := chunks.map (sim query) with hscores
    set pairs := scores.enum.map (fun p => (p.2, p.1)) with hpairs
    have hperm := sortByLe_perm faissLe pairs
    have hplen : pairs.length = chunks.length := by
      rw [hpairs, List.length_map, List.enum_length, hscores, List.length_map]
    constructor
    · rw [List.length_map, List.length_take, hperm.length_eq, hplen]
      exact Nat.min_eq_left (Nat.min_le_right _ _)
    · have h1 := sortByLe_pairwise faissLe faissLe_trans faissLe_total pairs
      have hsnd : pairs.map Prod.snd = List.range scores.length := by
        rw [hpairs, List.map_map]
        exact List.enum_map_fst scores
      have hnodup : ((sortByLe faissLe pairs).map Prod.snd).Nodup :=
        ((hperm.map Prod.snd).nodup_iff).mpr
          (by rw [hsnd]; exact List.nodup_range _)
      have hpne : (sortByLe faissLe pairs).Pairwise (fun a b => a.2 ≠ b.2) :=
        List.pairwise_map.mp hnodup
      have hcomb := h1.and hpne
      have hstrict : (sortByLe faissLe pairs).Pairwise
          (fun a b => b.1 < a.1 ∨ (a.1 = b.1 ∧ a.2 < b.2)) := by
        refine hcomb.imp ?_
        intro a b ⟨hle, hne⟩
        simp only [faissLe, Bool.or_eq_true, Bool.and_eq_true,
          decide_eq_true_eq] at hle
        rcases hle with h2 | ⟨h2, h3⟩
        · exact Or.inl h2
        · exact Or.inr ⟨h2, lt_of_le_of_ne h3 hne⟩
      have htake := hstrict.sublist
        (List.take_sublist (min top_n chunks.length) _)
      refine List.pairwise_map.mpr (htake.imp ?_)
      intro a b hab
      exact hab

/-- C5 witness: an unknown session returns no results; a known session with
two equal-scoring chunks returns exactly min(top_n, 2) = 2 results, sorted
(tie broken by ascending ordinal: chunk 0 before chunk 1). -/
theorem retrieve_chunks_spec_witness :
    retrieve_chunks (fun sid => if sid = 1 then some ["alpha", "beta"] else none)
      (fun _ _ => 1) 2 "q" 5 = [] ∧
    (retrieve_chunks (fun sid => if sid = 1 then some ["alpha", "beta"] else none)
      (fun _ _ => 1) 1 "q" 5).length = min 5 2 ∧
    (retrieve_chunks (fun sid => if sid = 1 then some ["alpha", "beta"] else none)
      (fun _ _ => 1) 1 "q" 5).Pairwise
      (fun a b => b.score < a.score ∨
        (a.score = b.score ∧ a.chunk_index < b.chunk_index)) ∧
    retrieve_chunks (fun sid => if sid = 1 then some ["alpha", "beta"] else none)
      (fun _ _ => 1) 1 "q" 5 = [⟨0, "alpha", 1⟩, ⟨1, "beta", 1⟩] := by
  have h1 := (retrieve_chunks_spec
    (fun sid => if sid = 1 then some ["alpha", "beta"] else none)
    (fun _ _ => 1) 2 "q" 5).1 (by decide)
  have h2 := (retrieve_chunks_spec
    (fun sid => if sid = 1 then some ["alpha", "beta"] else none)
    (fun _ _ => 1) 1 "q" 5).2 ["alpha", "beta"] (by decide)
  exact ⟨h1, h2.1, h2.2, by decide⟩

end Preda
